import Mathlib

set_option autoImplicit false

/-!
Verification of the zest-tasks queue–worker scheduling engine.

The development shallowly embeds the core of the repository:
* `TaskWorker.execute` — the bounded retry loop (`src/unnamed/part_003`,
  lines 36–63), with its completion/failure callbacks and busy/idle/deleted
  state machine;
* `createNewTask` — the simulated unit of work (`src/unnamed/part_009`),
  which rejects exactly when `Math.random() * 100 <= failureChance`;
* `TaskQueue` — backlog, worker pool, drain loop and statistics
  (`src/unnamed/part_000`).

Simulated latency and `performance.now()` readings are modelled by explicit
per-attempt data; the random draws of `Math.random()` by explicit rational
values in `[0, 1)`; timers by oracle functions saying which idle workers get
deleted between drain iterations.
-/

namespace ZestTasks

/-- Task as enqueued by callers (src/unnamed types/task): a caller-assigned
identifier and an opaque message. -/
structure Task where
  id : String
  message : String
  deriving DecidableEq, Repr

/-- Metadata handed to the `onComplete`/`onFail` callbacks by
`TaskWorker.execute`: the number of attempts made and
`performance.now() - startTime` of the attempt that produced the callback. -/
structure RunMetadata where
  attempts : ℕ
  processingTime : ℚ
  deriving DecidableEq, Repr

/-- One callback invocation performed by `TaskWorker.execute`. -/
inductive CallbackEvent where
  | complete (md : RunMetadata)
  | fail (md : RunMetadata)
  deriving DecidableEq, Repr

/-- Metadata carried by a callback invocation. -/
def CallbackEvent.metadata : CallbackEvent → RunMetadata
  | .complete md => md
  | .fail md => md

/-- Truth of `CallbackEvent` being a completion. -/
def CallbackEvent.isComplete : CallbackEvent → Bool
  | .complete _ => true
  | .fail _ => false

/-- Resolution test of `createNewTask` (src/unnamed/part_009): the promise
rejects when `Math.random() * 100 <= failureChance`, otherwise it resolves.
`r` is the value drawn from `Math.random()`, which lies in `[0, 1)`. -/
def createNewTaskResolves (r failureChance : ℚ) : Bool :=
  !decide (r * 100 ≤ failureChance)

/-- Retry loop of `TaskWorker.execute` (src/unnamed/part_003, lines 43–60).
`succ a` says whether the awaited `createNewTask` call of the iteration with
counter value `a` resolves; `dur a` is `performance.now() - startTime` for
that iteration (the start time is re-read at the top of each iteration).
The result is the list of callback invocations the loop performs, in order:
on success `onComplete` fires with the incremented attempt counter and the
loop breaks; on failure the counter is incremented and, once it reaches
`maxRetries`, `onFail` fires and the loop condition ends the loop. -/
def executeLoop (maxRetries : ℕ) (succ : ℕ → Bool) (dur : ℕ → ℚ)
    (attempts : ℕ) : List CallbackEvent :=
  if h : attempts < maxRetries then
    if succ attempts then
      [.complete ⟨attempts + 1, dur attempts⟩]
    else
      if attempts + 1 ≥ maxRetries then
        [.fail ⟨attempts + 1, dur attempts⟩]
      else
        executeLoop maxRetries succ dur (attempts + 1)
  else
    []
termination_by maxRetries - attempts
decreasing_by omega

/-- Callback invocations of one `TaskWorker.execute` call: the retry loop run
from `attempts = 0`. -/
def executeEvents (maxRetries : ℕ) (succ : ℕ → Bool) (dur : ℕ → ℚ) :
    List CallbackEvent :=
  executeLoop maxRetries succ dur 0

example :
    executeEvents 3 (fun _ => true) (fun _ => 7) = [.complete ⟨1, 7⟩] := by
  simp [executeEvents, executeLoop]

example :
    executeEvents 2 (fun _ => false) (fun a => a) = [.fail ⟨2, 1⟩] := by
  simp [executeEvents, executeLoop]

example : executeEvents 0 (fun _ => false) (fun _ => 0) = [] := by
  simp [executeEvents, executeLoop]

/-- Every callback the retry loop performs carries the metadata of the
iteration that produced it: attempt counter `k + 1` and the duration of
iteration `k` alone. Auxiliary induction on `maxRetries - attempts`. -/
theorem executeLoop_mem_metadata (maxRetries : ℕ) (succ : ℕ → Bool)
    (dur : ℕ → ℚ) :
    ∀ (n a : ℕ), maxRetries - a = n →
      ∀ e ∈ executeLoop maxRetries succ dur a,
        ∃ k, a ≤ k ∧ k < maxRetries ∧ e.metadata = ⟨k + 1, dur k⟩ := by
  intro n
  induction n with
  | zero =>
      intro a hn e he
      rw [executeLoop, dif_neg (by omega)] at he
      simp at he
  | succ n ih =>
      intro a hn e he
      rw [executeLoop] at he
      by_cases ha : a < maxRetries
      · rw [dif_pos ha] at he
        by_cases hs : succ a = true
        · rw [if_pos hs] at he
          simp only [List.mem_singleton] at he
          exact ⟨a, le_refl a, ha, by simp [he, CallbackEvent.metadata]⟩
        · rw [if_neg hs] at he
          by_cases hge : a + 1 ≥ maxRetries
          · rw [if_pos hge] at he
            simp only [List.mem_singleton] at he
            exact ⟨a, le_refl a, ha, by simp [he, CallbackEvent.metadata]⟩
          · rw [if_neg hge] at he
            obtain ⟨k, hk1, hk2, hk3⟩ := ih (a + 1) (by omega) e he
            exact ⟨k, by omega, hk2, hk3⟩
      · rw [dif_neg ha] at he
        simp at he

/-- Whenever the loop is entered with `attempts < maxRetries` it performs
exactly one callback. Auxiliary induction on `maxRetries - attempts`. -/
theorem executeLoop_length_one (maxRetries : ℕ) (succ : ℕ → Bool)
    (dur : ℕ → ℚ) :
    ∀ (n a : ℕ), maxRetries - a = n → a < maxRetries →
      (executeLoop maxRetries succ dur a).length = 1 := by
  intro n
  induction n with
  | zero => intro a hn ha; omega
  | succ n ih =>
      intro a hn ha
      rw [executeLoop, dif_pos ha]
      by_cases hs : succ a = true
      · rw [if_pos hs]; rfl
      · rw [if_neg hs]
        by_cases hge : a + 1 ≥ maxRetries
        · rw [if_pos hge]; rfl
        · rw [if_neg hge]
          exact ih (a + 1) (by omega) (by omega)

/-- When every attempt fails, the loop runs all `maxRetries` iterations and
ends in the single `onFail` callback of the last one. Auxiliary induction on
`maxRetries - attempts`. -/
theorem executeLoop_all_fail (maxRetries : ℕ) (succ : ℕ → Bool)
    (dur : ℕ → ℚ) (hfail : ∀ j, succ j = false) :
    ∀ (n a : ℕ), maxRetries - a = n → a < maxRetries →
      executeLoop maxRetries succ dur a
        = [.fail ⟨maxRetries, dur (maxRetries - 1)⟩] := by
  intro n
  induction n with
  | zero => intro a hn ha; omega
  | succ n ih =>
      intro a hn ha
      rw [executeLoop, dif_pos ha, if_neg (by simp [hfail a])]
      by_cases hge : a + 1 ≥ maxRetries
      · rw [if_pos hge]
        have ha1 : a + 1 = maxRetries := by omega
        have ha2 : a = maxRetries - 1 := by omega
        rw [ha1, ha2]
      · rw [if_neg hge]
        exact ih (a + 1) (by omega) (by omega)

/-- With at least one retry allowed, an execute call performs exactly one
callback invocation. -/
theorem executeEvents_single (maxRetries : ℕ) (succ : ℕ → Bool)
    (dur : ℕ → ℚ) (hmr : 1 ≤ maxRetries) :
    ∃ e, executeEvents maxRetries succ dur = [e] :=
  List.length_eq_one.mp
    (executeLoop_length_one maxRetries succ dur maxRetries 0 (by omega)
      (by omega))

/-- C1: a call to `TaskWorker.execute` with `maxRetries ≥ 1` performs exactly
one callback invocation — a single `onComplete` or a single `onFail` — and
with `maxRetries = 0` the retry loop makes no attempt and performs no
callback invocation at all. -/
theorem execute_exactly_one_callback (maxRetries : ℕ) (succ : ℕ → Bool)
    (dur : ℕ → ℚ) :
    (1 ≤ maxRetries → ∃ e, executeEvents maxRetries succ dur = [e])
    ∧ (maxRetries = 0 → executeEvents maxRetries succ dur = []) := by
  constructor
  · intro hmr
    exact executeEvents_single maxRetries succ dur hmr
  · intro hmr
    subst hmr
    rw [executeEvents, executeLoop, dif_neg (by omega)]

/-- Closed witness for `execute_exactly_one_callback` at `maxRetries = 3`
and `maxRetries = 0`. -/
theorem execute_exactly_one_callback_witness :
    (∃ e, executeEvents 3 (fun _ => false) (fun _ => 2) = [e])
    ∧ executeEvents 0 (fun _ => false) (fun _ => 2) = [] :=
  ⟨(execute_exactly_one_callback 3 (fun _ => false) (fun _ => 2)).1
      (by decide),
   (execute_exactly_one_callback 0 (fun _ => false) (fun _ => 2)).2 rfl⟩

/-- C3: for a task whose every execution attempt fails, given
`maxRetries ≥ 1`, the execute call performs exactly the single `onFail`
callback whose metadata has `attempts = maxRetries`; no `onComplete`
invocation occurs. -/
theorem retry_bound_all_fail (maxRetries : ℕ) (succ : ℕ → Bool)
    (dur : ℕ → ℚ) (hmr : 1 ≤ maxRetries) (hfail : ∀ j, succ j = false) :
    executeEvents maxRetries succ dur
      = [.fail ⟨maxRetries, dur (maxRetries - 1)⟩] :=
  executeLoop_all_fail maxRetries succ dur hfail maxRetries 0 (by omega)
    (by omega)

/-- Closed witness for `retry_bound_all_fail` with `maxRetries = 2`. -/
theorem retry_bound_all_fail_witness :
    executeEvents 2 (fun _ => false) (fun a => (a : ℚ)) = [.fail ⟨2, 1⟩] := by
  have h := retry_bound_all_fail 2 (fun _ => false) (fun a => (a : ℚ))
    (by decide) (fun _ => rfl)
  simpa using h

/-- C10: the `processingTime` reported to a callback equals the elapsed time
of the final attempt alone — the iteration whose index is `attempts - 1` —
because the start-time reading is re-taken at the top of every retry
iteration; it is not the cumulative time across attempts. -/
theorem processing_time_last_attempt (maxRetries : ℕ) (succ : ℕ → Bool)
    (dur : ℕ → ℚ) (e : CallbackEvent)
    (he : e ∈ executeEvents maxRetries succ dur) :
    e.metadata.processingTime = dur (e.metadata.attempts - 1) := by
  obtain ⟨k, _, _, hmd⟩ :=
    executeLoop_mem_metadata maxRetries succ dur maxRetries 0 (by omega) e he
  rw [hmd]
  simp

/-- Closed witness for `processing_time_last_attempt`: first attempt fails,
second succeeds; the reported time is that of attempt index 1 only. -/
theorem processing_time_last_attempt_witness :
    (CallbackEvent.complete ⟨2, 5⟩).metadata.processingTime
      = (fun a : ℕ => (a : ℚ) * 5)
          ((CallbackEvent.complete ⟨2, 5⟩).metadata.attempts - 1) :=
  processing_time_last_attempt 3 (fun a => decide (a = 1))
    (fun a : ℕ => (a : ℚ) * 5) (CallbackEvent.complete ⟨2, 5⟩)
    (by simp [executeEvents, executeLoop, CallbackEvent.metadata])

/-- Outcome of one awaited `createNewTask` promise (src/unnamed/part_009):
it either resolves, or rejects with the simulated error value. -/
def runAttempt (succ : Bool) (taskId : String) : Except String Unit :=
  if succ then .ok ()
  else .error ("Task " ++ taskId ++ " failed due to simulated error.")

/-- Retry loop of `TaskWorker.execute` with the rejection of each attempt
threaded explicitly: the `try`/`catch` of the source becomes a `match` on
the attempt's `Except` outcome, and an error value the loop failed to catch
would surface as `Except.error`, rejecting the promise that `execute`
returns to the drain loop. -/
def executeLoopE (maxRetries : ℕ) (succ : ℕ → Bool) (dur : ℕ → ℚ)
    (taskId : String) (attempts : ℕ) : Except String (List CallbackEvent) :=
  if _h : attempts < maxRetries then
    match runAttempt (succ attempts) taskId with
    | .ok _ => .ok [.complete ⟨attempts + 1, dur attempts⟩]
    | .error _e =>
      if attempts + 1 ≥ maxRetries then
        .ok [.fail ⟨attempts + 1, dur attempts⟩]
      else
        executeLoopE maxRetries succ dur taskId (attempts + 1)
  else
    .ok []
termination_by maxRetries - attempts
decreasing_by omega

/-- Promise returned by one `TaskWorker.execute` call, with rejection
threaded explicitly. -/
def executeE (maxRetries : ℕ) (succ : ℕ → Bool) (dur : ℕ → ℚ)
    (taskId : String) : Except String (List CallbackEvent) :=
  executeLoopE maxRetries succ dur taskId 0

/-- Exception-threaded retry loop never rejects: every attempt failure is
caught by the loop's own `catch`, and it agrees with the pure loop.
Auxiliary induction on `maxRetries - attempts`. -/
theorem executeLoopE_ok (maxRetries : ℕ) (succ : ℕ → Bool) (dur : ℕ → ℚ)
    (taskId : String) :
    ∀ (n a : ℕ), maxRetries - a = n →
      executeLoopE maxRetries succ dur taskId a
        = .ok (executeLoop maxRetries succ dur a) := by
  intro n
  induction n with
  | zero =>
      intro a hn
      rw [executeLoopE, executeLoop, dif_neg (by omega), dif_neg (by omega)]
  | succ n ih =>
      intro a hn
      rw [executeLoopE, executeLoop]
      by_cases ha : a < maxRetries
      · rw [dif_pos ha, dif_pos ha]
        by_cases hs : succ a = true
        · rw [if_pos hs]
          simp [runAttempt, hs]
        · rw [if_neg hs]
          have hra : runAttempt (succ a) taskId
              = .error ("Task " ++ taskId ++ " failed due to simulated error.") := by
            simp [runAttempt, hs]
          rw [hra]
          by_cases hge : a + 1 ≥ maxRetries
          · rw [if_pos hge, if_pos hge]
          · rw [if_neg hge, if_neg hge]
            exact ih (a + 1) (by omega)
      · rw [dif_neg ha, dif_neg ha]

/-- Observable state of one `TaskWorker` (src/unnamed/part_003): the
`_isBusy` and `_isDeleted` flags, and whether `_idleTimer` holds a pending
timeout. -/
structure WorkerState where
  busy : Bool
  deleted : Bool
  timerArmed : Bool
  deriving DecidableEq, Repr

/-- State of a freshly constructed `TaskWorker`: idle, not deleted, and with
no idle timer pending (the constructor starts none). -/
def initWorker : WorkerState := ⟨false, false, false⟩

/-- Atomic events on one `TaskWorker`: entry into `execute` (clears the idle
timer, sets `_isBusy`), the end of the retry loop (clears `_isBusy`,
restarts the idle timer), the idle timer firing (which calls `delete`), and
an explicit `delete()` call (clears the timer, sets `_isDeleted`). -/
inductive WorkerEvent where
  | execStart
  | execFinish
  | timerFire
  | deleteCall
  deriving DecidableEq, Repr

/-- Literal one-step transition of the worker flags: `execute` lines 41–42
and 61–62, `delete` lines 79–82, and the timeout callback installed by
`_startIdleTimer` (lines 72–77; a timer can only fire while armed, and
firing consumes it). `delete` is unconditional in the source. -/
def wstep (s : WorkerState) : WorkerEvent → WorkerState
  | .execStart => ⟨true, s.deleted, false⟩
  | .execFinish => ⟨false, s.deleted, true⟩
  | .timerFire => if s.timerArmed then ⟨s.busy, true, false⟩ else s
  | .deleteCall => ⟨s.busy, true, false⟩

/-- Worker state after a sequence of events, starting from `s`. -/
def runWorker (s : WorkerState) (es : List WorkerEvent) : WorkerState :=
  es.foldl wstep s

/-- C9 counterexample: under unrestricted interleaving the claim fails at a
concrete input — invoking `delete()` while the worker is busy (that is,
between the start and the end of an `execute` call) reaches a state that is
simultaneously busy and deleted, because `delete` sets `_isDeleted`
unconditionally. -/
theorem busy_deleted_counterexample :
    (runWorker initWorker [.execStart, .deleteCall]).busy = true
    ∧ (runWorker initWorker [.execStart, .deleteCall]).deleted = true := by
  decide

/-- Guarded transitions for the amended C9: `execute` is never invoked on a
deleted worker, and `delete()` is only invoked while the worker is idle —
the discipline the Queue and the idle timer observe (`clearDeletedWorkers`
runs synchronously before dispatch; the timer is armed only while idle). -/
inductive WStep : WorkerState → WorkerState → Prop
  | execStart (s : WorkerState) (h : s.deleted = false) :
      WStep s ⟨true, s.deleted, false⟩
  | execFinish (s : WorkerState) : WStep s ⟨false, s.deleted, true⟩
  | timerFire (s : WorkerState) (h : s.timerArmed = true) :
      WStep s ⟨s.busy, true, false⟩
  | deleteCall (s : WorkerState) (h : s.busy = false) :
      WStep s ⟨s.busy, true, false⟩

/-- Inductive invariant of the disciplined worker: a busy worker is not
deleted, and an armed idle timer implies the worker is idle. -/
def WorkerInv (s : WorkerState) : Prop :=
  (s.busy = true → s.deleted = false) ∧ (s.timerArmed = true → s.busy = false)

/-- One disciplined step preserves `WorkerInv`. -/
theorem WStep_preserves_inv {s s' : WorkerState} (hs : WorkerInv s)
    (h : WStep s s') : WorkerInv s' := by
  cases h with
  | execStart h => exact ⟨fun _ => h, by simp⟩
  | execFinish => exact ⟨by simp, fun _ => rfl⟩
  | timerFire h =>
      exact ⟨fun hb => absurd (hs.2 h) (by simp_all), by simp⟩
  | deleteCall h => exact ⟨fun hb => absurd h (by simp_all), by simp⟩

/-- Every state reachable by disciplined steps satisfies `WorkerInv`. -/
theorem reachable_inv (s : WorkerState)
    (h : Relation.ReflTransGen WStep initWorker s) : WorkerInv s := by
  induction h with
  | refl => exact ⟨fun _ => rfl, fun _ => rfl⟩
  | tail _ hstep ih => exact WStep_preserves_inv ih hstep

/-- C9 (amended): for every worker state reachable under interleavings of
`execute`, idle-timer firing, and `delete()` in which `execute` is never
started on a deleted worker and `delete()` is only invoked while the worker
is idle (the discipline the Queue and the idle-timer observe), the worker is
never simultaneously busy and deleted. The unrestricted claim fails: see
`busy_deleted_counterexample`. -/
theorem busy_deleted_invariant (s : WorkerState)
    (h : Relation.ReflTransGen WStep initWorker s) :
    ¬(s.busy = true ∧ s.deleted = true) := by
  intro ⟨hb, hd⟩
  have := (reachable_inv s h).1 hb
  rw [this] at hd
  exact Bool.false_ne_true hd

/-- Closed witness for `busy_deleted_invariant`: the state reached by
starting one `execute` call on a fresh worker. -/
theorem busy_deleted_invariant_witness :
    ¬((⟨true, false, false⟩ : WorkerState).busy = true
      ∧ (⟨true, false, false⟩ : WorkerState).deleted = true) :=
  busy_deleted_invariant ⟨true, false, false⟩
    (Relation.ReflTransGen.single (WStep.execStart initWorker rfl))

/-- Worker as the Queue's pool sees it: the two flags `isBusy()` and
`isDeleted()` report. Between drain iterations a worker's `busy` flag is
`false` (each `execute` is awaited to completion and clears it), so the pool
entries record the flags at the loop's observation points. -/
structure QWorker where
  busy : Bool
  deleted : Bool
  deriving DecidableEq, Repr

/-- Pool entry for a freshly constructed `TaskWorker`. -/
def freshWorker : QWorker := ⟨false, false⟩

/-- State of one `TaskQueue` (src/unnamed/part_000): backlog, worker pool,
the `_isBusy` processing flag, the statistics counters, and the trace of
`(task, metadata)` pairs forwarded to the caller-supplied
`onComplete`/`onFail` callbacks, in invocation order. -/
structure QState where
  taskQueue : List Task
  workers : List QWorker
  isBusy : Bool
  lifetimeTaskCounter : ℕ
  taskAttemptCounter : ℕ
  taskSuccessAmount : ℕ
  taskFailureAmount : ℕ
  averageProcessingTime : ℚ
  trace : List (Task × CallbackEvent)
  deriving DecidableEq, Repr

/-- State of a freshly constructed `TaskQueue`: empty backlog, empty pool,
all counters zero. -/
def initQueue : QState :=
  ⟨[], [], false, 0, 0, 0, 0, 0, []⟩

/-- TaskQueue.addTask (part_000 lines 53–55): push to the backlog tail. -/
def addTask (s : QState) (t : Task) : QState :=
  { s with taskQueue := s.taskQueue ++ [t] }

/-- Sequence of `addTask` calls. -/
def addTasks (s : QState) (ts : List Task) : QState :=
  ts.foldl addTask s

/-- Completion/failure handlers the drain loop passes to `worker.execute`
(part_000 lines 79–95): forward `(task, metadata)` to the caller-supplied
callback (recorded on the trace), then update the lifetime counters; on
success the running `averageProcessingTime` update divides by the
just-incremented `_lifetimeTaskCounter`. -/
def handleEvent (s : QState) (t : Task) : CallbackEvent → QState
  | .complete md =>
    let lifetime := s.lifetimeTaskCounter + 1
    { s with
      trace := s.trace ++ [(t, .complete md)]
      lifetimeTaskCounter := lifetime
      taskAttemptCounter := s.taskAttemptCounter + md.attempts
      taskSuccessAmount := s.taskSuccessAmount + 1
      averageProcessingTime :=
        s.averageProcessingTime
          + (md.processingTime - s.averageProcessingTime) / (lifetime : ℚ) }
  | .fail md =>
    { s with
      trace := s.trace ++ [(t, .fail md)]
      lifetimeTaskCounter := s.lifetimeTaskCounter + 1
      taskAttemptCounter := s.taskAttemptCounter + md.attempts
      taskFailureAmount := s.taskFailureAmount + 1 }

/-- TaskQueue.clearDeletedWorkers (part_000 lines 110–112): drop every
worker whose `isDeleted()` is true. -/
def clearDeletedWorkers (ws : List QWorker) : List QWorker :=
  ws.filter (fun w => !w.deleted)

/-- Idle-expiry firings between drain iterations: any non-busy worker whose
timer fires becomes deleted (`TaskWorker.delete`). A busy worker cannot be
deleted this way because `execute` cleared its idle timer. The oracle `d`
says which pool positions fire. -/
def applyDeletions (d : ℕ → Bool) (ws : List QWorker) : List QWorker :=
  ws.mapIdx (fun i w =>
    if !w.busy && d i then { w with deleted := true } else w)

/-- TaskQueue.getAvailableWorker (part_000 lines 101–108): while the pool is
below `maxWorkers`, construct a new worker, push it, and return it;
otherwise return the first non-busy worker, if any. The result pairs the
index of the chosen worker with the updated pool. -/
def getAvailableWorker (maxWorkers : ℕ) (ws : List QWorker) :
    Option (ℕ × List QWorker) :=
  if ws.length < maxWorkers then
    some (ws.length, ws ++ [freshWorker])
  else
    match ws.findIdx? (fun w => !w.busy) with
    | some i => some (i, ws)
    | none => none

/-- TaskQueue._processQueue (part_000 lines 57–99): while the backlog is
non-empty, reap deleted workers, acquire a worker (backing off without
consuming a task when none is available), then shift the head task and
await `worker.execute` on it, whose callbacks run `handleEvent`; when the
backlog empties, clear `_isBusy`. `fuel` bounds the number of loop
iterations evaluated; `k` counts dispatches, and `world k` provides the
attempt outcomes and durations of the `k`-th dispatched execution; the
`dels` oracle provides the idle-timer firings before each iteration. -/
def drainLoop (maxWorkers maxRetries : ℕ)
    (world : ℕ → (ℕ → Bool) × (ℕ → ℚ)) (dels : ℕ → ℕ → Bool) :
    ℕ → ℕ → QState → QState
  | 0, _, s => s
  | fuel + 1, k, s =>
    match s.taskQueue with
    | [] => { s with isBusy := false }
    | t :: rest =>
      let ws := clearDeletedWorkers (applyDeletions (dels fuel) s.workers)
      match getAvailableWorker maxWorkers ws with
      | none =>
          drainLoop maxWorkers maxRetries world dels fuel k
            { s with workers := ws }
      | some (_i, ws') =>
          let evs := executeEvents maxRetries (world k).1 (world k).2
          drainLoop maxWorkers maxRetries world dels fuel (k + 1)
            (evs.foldl (fun acc e => handleEvent acc t e)
              { s with workers := ws', taskQueue := rest })

/-- TaskQueue.process (part_000 lines 114–118): a no-op while `_isBusy` is
set, otherwise set `_isBusy` and run the drain loop. -/
def process (maxWorkers maxRetries : ℕ)
    (world : ℕ → (ℕ → Bool) × (ℕ → ℚ)) (dels : ℕ → ℕ → Bool)
    (fuel : ℕ) (s : QState) : QState :=
  if s.isBusy then s
  else drainLoop maxWorkers maxRetries world dels fuel 0
    { s with isBusy := true }

/-- Statistics snapshot returned by `TaskQueue.getStatistics` (part_000
lines 124–135). -/
structure Statistics where
  lifetimeTaskCounter : ℕ
  numberOfTaskTries : ℕ
  successToFailureRatio : ℚ
  averageProcessingTime : ℚ
  currentQueueLength : ℕ
  idleWorkers : ℕ
  hotWorkers : ℕ
  deriving DecidableEq, Repr

/-- TaskQueue.getStatistics (part_000 lines 124–135); the source's
`this._taskFailureAmount || 1` denominator is `1` exactly when the failure
count is `0`. -/
def getStatistics (s : QState) : Statistics :=
  { lifetimeTaskCounter := s.lifetimeTaskCounter
    numberOfTaskTries := s.taskAttemptCounter
    successToFailureRatio :=
      (s.taskSuccessAmount : ℚ)
        / (if s.taskFailureAmount = 0 then 1 else (s.taskFailureAmount : ℚ))
    averageProcessingTime := s.averageProcessingTime
    currentQueueLength := s.taskQueue.length
    idleWorkers := (s.workers.filter (fun w => !w.busy)).length
    hotWorkers := (s.workers.filter (fun w => w.busy)).length }

/-- Completion/failure handlers leave the worker pool untouched. -/
theorem handleEvent_workers (s : QState) (t : Task) (e : CallbackEvent) :
    (handleEvent s t e).workers = s.workers := by
  cases e <;> rfl

/-- Completion/failure handlers leave the backlog untouched. -/
theorem handleEvent_taskQueue (s : QState) (t : Task) (e : CallbackEvent) :
    (handleEvent s t e).taskQueue = s.taskQueue := by
  cases e <;> rfl

/-- Completion/failure handlers append exactly the forwarded pair to the
callback trace. -/
theorem handleEvent_trace (s : QState) (t : Task) (e : CallbackEvent) :
    (handleEvent s t e).trace = s.trace ++ [(t, e)] := by
  cases e <;> rfl

/-- Folding handlers over a list of events leaves the pool untouched. -/
theorem foldl_handleEvent_workers (t : Task) (evs : List CallbackEvent) :
    ∀ s : QState,
      (evs.foldl (fun acc e => handleEvent acc t e) s).workers = s.workers := by
  induction evs with
  | nil => intro s; rfl
  | cons e evs ih => intro s; rw [List.foldl_cons, ih, handleEvent_workers]

/-- Idle-timer firings preserve the pool's length. -/
theorem applyDeletions_length (d : ℕ → Bool) (ws : List QWorker) :
    (applyDeletions d ws).length = ws.length := by
  simp [applyDeletions]

/-- Idle-timer firings preserve every worker's `busy` flag. -/
theorem applyDeletions_busy (d : ℕ → Bool) (ws : List QWorker)
    (hws : ∀ w ∈ ws, w.busy = false) :
    ∀ w ∈ applyDeletions d ws, w.busy = false := by
  intro w hw
  obtain ⟨i, hi, hweq⟩ := List.exists_of_mem_mapIdx hw
  have hmem : ws[i] ∈ ws := List.getElem_mem _
  by_cases hc : (!ws[i].busy && d i) = true
  · rw [← hweq, if_pos hc]
    exact hws ws[i] hmem
  · rw [← hweq, if_neg hc]
    exact hws ws[i] hmem

/-- Reaping deleted workers never grows the pool. -/
theorem clearDeletedWorkers_length (ws : List QWorker) :
    (clearDeletedWorkers ws).length ≤ ws.length :=
  List.length_filter_le _ _

/-- Reaping preserves every remaining worker's membership in the pool. -/
theorem clearDeletedWorkers_subset (ws : List QWorker) :
    ∀ w ∈ clearDeletedWorkers ws, w ∈ ws := by
  intro w hw
  exact List.mem_of_mem_filter hw

/-- `getAvailableWorker` keeps the pool within `maxWorkers`: creation only
happens under the `pool size < maxWorkers` check. -/
theorem getAvailableWorker_length (maxWorkers : ℕ) (ws : List QWorker)
    (hws : ws.length ≤ maxWorkers) (i : ℕ) (ws' : List QWorker)
    (h : getAvailableWorker maxWorkers ws = some (i, ws')) :
    ws'.length ≤ maxWorkers := by
  rw [getAvailableWorker] at h
  by_cases hlt : ws.length < maxWorkers
  · rw [if_pos hlt] at h
    obtain ⟨-, rfl⟩ := Prod.mk.injEq .. ▸ Option.some.inj h
    simp only [List.length_append, List.length_singleton]
    omega
  · rw [if_neg hlt] at h
    cases hfind : ws.findIdx? (fun w => !w.busy) with
    | none => rw [hfind] at h; exact absurd h (by simp)
    | some j =>
        rw [hfind] at h
        obtain ⟨-, rfl⟩ := Prod.mk.injEq .. ▸ Option.some.inj h
        exact hws

/-- When the pool holds a non-busy worker or is below capacity,
`getAvailableWorker` succeeds and returns a pool of all-idle workers when
given one. -/
theorem getAvailableWorker_found (maxWorkers : ℕ) (ws : List QWorker)
    (hmw : 1 ≤ maxWorkers) (hbusy : ∀ w ∈ ws, w.busy = false) :
    ∃ i ws', getAvailableWorker maxWorkers ws = some (i, ws')
      ∧ (∀ w ∈ ws', w.busy = false) := by
  rw [getAvailableWorker]
  by_cases hlt : ws.length < maxWorkers
  · refine ⟨ws.length, ws ++ [freshWorker], by rw [if_pos hlt], ?_⟩
    intro w hw
    rcases List.mem_append.mp hw with hw | hw
    · exact hbusy w hw
    · simp only [List.mem_singleton] at hw
      rw [hw]; rfl
  · have hne : ws ≠ [] := by
      intro hnil
      rw [hnil] at hlt
      simp at hlt
      omega
    obtain ⟨w0, ws0, rfl⟩ := List.exists_cons_of_ne_nil hne
    have hidx : (w0 :: ws0).findIdx? (fun w => !w.busy) = some 0 := by
      rw [List.findIdx?_cons]
      simp [hbusy w0 (List.mem_cons_self w0 ws0)]
    refine ⟨0, w0 :: ws0, ?_, hbusy⟩
    rw [if_neg hlt, hidx]

/-- Unfolding of the drain loop at exhausted fuel. -/
theorem drainLoop_zero (maxWorkers maxRetries : ℕ)
    (world : ℕ → (ℕ → Bool) × (ℕ → ℚ)) (dels : ℕ → ℕ → Bool) (k : ℕ)
    (s : QState) :
    drainLoop maxWorkers maxRetries world dels 0 k s = s := rfl

/-- Unfolding of the drain loop when the backlog is empty: the loop
condition fails and `_isBusy` is cleared. -/
theorem drainLoop_succ_nil (maxWorkers maxRetries : ℕ)
    (world : ℕ → (ℕ → Bool) × (ℕ → ℚ)) (dels : ℕ → ℕ → Bool) (fuel k : ℕ)
    (s : QState) (hq : s.taskQueue = []) :
    drainLoop maxWorkers maxRetries world dels (fuel + 1) k s
      = { s with isBusy := false } := by
  rw [drainLoop, hq]

/-- Unfolding of one drain iteration whose backlog is non-empty and whose
worker acquisition fails: back off without consuming a task. -/
theorem drainLoop_succ_none (maxWorkers maxRetries : ℕ)
    (world : ℕ → (ℕ → Bool) × (ℕ → ℚ)) (dels : ℕ → ℕ → Bool) (fuel k : ℕ)
    (s : QState) (t : Task) (rest : List Task) (hq : s.taskQueue = t :: rest)
    (hga : getAvailableWorker maxWorkers
        (clearDeletedWorkers (applyDeletions (dels fuel) s.workers)) = none) :
    drainLoop maxWorkers maxRetries world dels (fuel + 1) k s
      = drainLoop maxWorkers maxRetries world dels fuel k
          { s with workers :=
              clearDeletedWorkers (applyDeletions (dels fuel) s.workers) } := by
  rw [drainLoop, hq]
  simp only [hga]

/-- Unfolding of one drain iteration that acquires a worker: shift the head
task, run the execute callbacks through the handlers, continue. -/
theorem drainLoop_succ_some (maxWorkers maxRetries : ℕ)
    (world : ℕ → (ℕ → Bool) × (ℕ → ℚ)) (dels : ℕ → ℕ → Bool) (fuel k : ℕ)
    (s : QState) (t : Task) (rest : List Task) (hq : s.taskQueue = t :: rest)
    (i : ℕ) (ws' : List QWorker)
    (hga : getAvailableWorker maxWorkers
        (clearDeletedWorkers (applyDeletions (dels fuel) s.workers))
          = some (i, ws')) :
    drainLoop maxWorkers maxRetries world dels (fuel + 1) k s
      = drainLoop maxWorkers maxRetries world dels fuel (k + 1)
          ((executeEvents maxRetries (world k).1 (world k).2).foldl
            (fun acc e => handleEvent acc t e)
            { s with workers := ws', taskQueue := rest }) := by
  rw [drainLoop, hq]
  simp only [hga]

/-- Pool-size bound through the drain loop: every iteration's pool mutation
(timer deletions, reaping, guarded creation, handler updates) keeps the
pool within `maxWorkers`. -/
theorem drainLoop_pool_bound (maxWorkers maxRetries : ℕ)
    (world : ℕ → (ℕ → Bool) × (ℕ → ℚ)) (dels : ℕ → ℕ → Bool) :
    ∀ (fuel k : ℕ) (s : QState), s.workers.length ≤ maxWorkers →
      (drainLoop maxWorkers maxRetries world dels fuel k s).workers.length
        ≤ maxWorkers := by
  intro fuel
  induction fuel with
  | zero => intro k s hs; exact hs
  | succ fuel ih =>
      intro k s hs
      cases hq : s.taskQueue with
      | nil =>
          rw [drainLoop_succ_nil maxWorkers maxRetries world dels fuel k s hq]
          exact hs
      | cons t rest =>
          have hwsle :
              (clearDeletedWorkers
                (applyDeletions (dels fuel) s.workers)).length ≤ maxWorkers :=
            le_trans (clearDeletedWorkers_length _)
              (by rw [applyDeletions_length]; exact hs)
          cases hga : getAvailableWorker maxWorkers
              (clearDeletedWorkers (applyDeletions (dels fuel) s.workers)) with
          | none =>
              rw [drainLoop_succ_none maxWorkers maxRetries world dels fuel k
                s t rest hq hga]
              exact ih k _ hwsle
          | some p =>
              obtain ⟨i, ws'⟩ := p
              rw [drainLoop_succ_some maxWorkers maxRetries world dels fuel k
                s t rest hq i ws' hga]
              have hws' : ws'.length ≤ maxWorkers :=
                getAvailableWorker_length maxWorkers _ hwsle i ws' hga
              refine ih (k + 1) _ ?_
              rw [foldl_handleEvent_workers]
              exact hws'

/-- C5: starting from a freshly constructed queue, for every `maxWorkers ≥ 1`
and any number of drain-loop iterations (any `fuel`, observed at every loop
top since `fuel` is universally quantified), the worker pool never exceeds
`maxWorkers`: every worker creation is guarded by the
`pool size < maxWorkers` check. -/
theorem pool_size_bounded (maxWorkers maxRetries : ℕ) (_hmw : 1 ≤ maxWorkers)
    (world : ℕ → (ℕ → Bool) × (ℕ → ℚ)) (dels : ℕ → ℕ → Bool)
    (ts : List Task) (fuel : ℕ) :
    (process maxWorkers maxRetries world dels fuel
        (addTasks initQueue ts)).workers.length ≤ maxWorkers := by
  rw [process]
  have hinit : (addTasks initQueue ts).workers = [] := by
    have : ∀ s : QState, (addTasks s ts).workers = s.workers := by
      intro s
      induction ts generalizing s with
      | nil => rfl
      | cons t ts ih => rw [addTasks, List.foldl_cons, ← addTasks, ih]; rfl
    rw [this]; rfl
  by_cases hb : (addTasks initQueue ts).isBusy
  · rw [if_pos hb]
    rw [hinit]
    simp
  · rw [if_neg hb]
    apply drainLoop_pool_bound
    simp [hinit]

/-- Closed witness for `pool_size_bounded`: two tasks, one worker, enough
fuel. -/
theorem pool_size_bounded_witness :
    (process 1 1 (fun _ => (fun _ => true, fun _ => 0)) (fun _ _ => false) 3
        (addTasks initQueue [⟨"a", "x"⟩, ⟨"b", "y"⟩])).workers.length ≤ 1 :=
  pool_size_bounded 1 1 (by decide) (fun _ => (fun _ => true, fun _ => 0))
    (fun _ _ => false) [⟨"a", "x"⟩, ⟨"b", "y"⟩] 3

/-- C4: invoking `process()` while a previous invocation is still draining
(the `_isBusy` flag is set) is a no-op: the whole queue state is unchanged —
backlog, worker pool, statistics counters, and the callback trace, so no
additional callback invocation happens for any task. -/
theorem process_reentrant (maxWorkers maxRetries : ℕ)
    (world : ℕ → (ℕ → Bool) × (ℕ → ℚ)) (dels : ℕ → ℕ → Bool) (fuel : ℕ)
    (s : QState) (h : s.isBusy = true) :
    process maxWorkers maxRetries world dels fuel s = s := by
  rw [process, if_pos h]

/-- Closed witness for `process_reentrant`: a draining queue with one
pending task. -/
theorem process_reentrant_witness :
    process 2 3 (fun _ => (fun _ => true, fun _ => 0)) (fun _ _ => false) 7
        ⟨[⟨"a", "m"⟩], [freshWorker], true, 0, 0, 0, 0, 0, []⟩
      = ⟨[⟨"a", "m"⟩], [freshWorker], true, 0, 0, 0, 0, 0, []⟩ :=
  process_reentrant 2 3 (fun _ => (fun _ => true, fun _ => 0))
    (fun _ _ => false) 7 ⟨[⟨"a", "m"⟩], [freshWorker], true, 0, 0, 0, 0, 0, []⟩
    rfl

/-- Sequence of `addTask` calls appends the tasks, in order, to the backlog
tail and touches nothing else. -/
theorem addTasks_spec :
    ∀ (ts : List Task) (s : QState),
      addTasks s ts = { s with taskQueue := s.taskQueue ++ ts } := by
  intro ts
  induction ts with
  | nil => intro s; simp [addTasks]
  | cons t ts ih =>
      intro s
      rw [addTasks, List.foldl_cons, ← addTasks, ih]
      simp [addTask]

/-- Trace extension of the drain loop: starting from a pool of idle workers
and enough fuel, the loop dispatches the backlog head-first, one awaited
execution at a time, and each dispatch appends exactly one callback pair
for its task; so the tasks recorded on the trace extend in backlog order. -/
theorem drainLoop_trace (maxWorkers maxRetries : ℕ) (hmw : 1 ≤ maxWorkers)
    (hmr : 1 ≤ maxRetries) (world : ℕ → (ℕ → Bool) × (ℕ → ℚ))
    (dels : ℕ → ℕ → Bool) :
    ∀ (fuel k : ℕ) (s : QState), (∀ w ∈ s.workers, w.busy = false) →
      s.taskQueue.length ≤ fuel →
      ((drainLoop maxWorkers maxRetries world dels fuel k s).trace).map
          Prod.fst
        = s.trace.map Prod.fst ++ s.taskQueue := by
  intro fuel
  induction fuel with
  | zero =>
      intro k s hbusy hlen
      have hq : s.taskQueue = [] :=
        List.length_eq_zero.mp (Nat.le_zero.mp hlen)
      rw [drainLoop_zero, hq, List.append_nil]
  | succ fuel ih =>
      intro k s hbusy hlen
      cases hq : s.taskQueue with
      | nil =>
          rw [drainLoop_succ_nil maxWorkers maxRetries world dels fuel k s hq,
            hq, List.append_nil]
      | cons t rest =>
          have hbusy1 : ∀ w ∈ clearDeletedWorkers
              (applyDeletions (dels fuel) s.workers), w.busy = false :=
            fun w hw => applyDeletions_busy (dels fuel) s.workers hbusy w
              (clearDeletedWorkers_subset _ w hw)
          obtain ⟨i, ws', hga, hbusy2⟩ :=
            getAvailableWorker_found maxWorkers _ hmw hbusy1
          rw [drainLoop_succ_some maxWorkers maxRetries world dels fuel k s t
            rest hq i ws' hga]
          obtain ⟨e, hev⟩ :=
            executeEvents_single maxRetries (world k).1 (world k).2 hmr
          rw [hev, List.foldl_cons, List.foldl_nil]
          have hw' : ∀ w ∈ (handleEvent
              { s with workers := ws', taskQueue := rest } t e).workers,
              w.busy = false := by
            rw [handleEvent_workers]
            exact hbusy2
          have hl' : (handleEvent
              { s with workers := ws', taskQueue := rest } t
                e).taskQueue.length ≤ fuel := by
            rw [handleEvent_taskQueue]
            have h2 := hlen
            rw [hq] at h2
            simpa using h2
          rw [ih (k + 1) _ hw' hl', handleEvent_trace, handleEvent_taskQueue]
          simp

/-- C2: for any sequence of `addTask` calls followed by one `process()` call
given enough loop iterations, the sequence of tasks passed to the
caller-supplied `onComplete`/`onFail` callbacks equals the enqueue order:
tasks are shifted from the backlog head one at a time and each worker
execution is awaited to completion (modelled by the atomic per-task
dispatch) before the next is dequeued. -/
theorem fifo_order (maxWorkers maxRetries : ℕ) (hmw : 1 ≤ maxWorkers)
    (hmr : 1 ≤ maxRetries) (ts : List Task)
    (world : ℕ → (ℕ → Bool) × (ℕ → ℚ)) (dels : ℕ → ℕ → Bool) (fuel : ℕ)
    (hfuel : ts.length ≤ fuel) :
    ((process maxWorkers maxRetries world dels fuel
        (addTasks initQueue ts)).trace).map Prod.fst = ts := by
  rw [addTasks_spec]
  rw [process]
  rw [if_neg (by simp [initQueue])]
  have h := drainLoop_trace maxWorkers maxRetries hmw hmr world dels fuel 0
    { { initQueue with taskQueue := initQueue.taskQueue ++ ts }
        with isBusy := true }
    (by simp [initQueue]) (by simpa [initQueue] using hfuel)
  simpa [initQueue] using h

/-- Closed witness for `fifo_order`: two tasks through a single-worker
queue; the callbacks fire for them in enqueue order. -/
theorem fifo_order_witness :
    ((process 1 1 (fun _ => (fun _ => true, fun _ => 0)) (fun _ _ => false) 2
        (addTasks initQueue [⟨"A", "1"⟩, ⟨"B", "2"⟩])).trace).map Prod.fst
      = [⟨"A", "1"⟩, ⟨"B", "2"⟩] :=
  fifo_order 1 1 (by decide) (by decide) [⟨"A", "1"⟩, ⟨"B", "2"⟩]
    (fun _ => (fun _ => true, fun _ => 0)) (fun _ _ => false) 2 (by decide)

/-- TaskQueue._processQueue with promise rejection threaded explicitly: had
an awaited `worker.execute` rejected, the rejection would propagate out of
the drain loop as `Except.error` to the caller of `process()`. -/
def drainLoopE (maxWorkers maxRetries : ℕ)
    (world : ℕ → (ℕ → Bool) × (ℕ → ℚ)) (dels : ℕ → ℕ → Bool) :
    ℕ → ℕ → QState → Except String QState
  | 0, _, s => .ok s
  | fuel + 1, k, s =>
    match s.taskQueue with
    | [] => .ok { s with isBusy := false }
    | t :: rest =>
      let ws := clearDeletedWorkers (applyDeletions (dels fuel) s.workers)
      match getAvailableWorker maxWorkers ws with
      | none =>
          drainLoopE maxWorkers maxRetries world dels fuel k
            { s with workers := ws }
      | some (_i, ws') =>
          match executeE maxRetries (world k).1 (world k).2 t.id with
          | .error e => .error e
          | .ok evs =>
              drainLoopE maxWorkers maxRetries world dels fuel (k + 1)
                (evs.foldl (fun acc e => handleEvent acc t e)
                  { s with workers := ws', taskQueue := rest })

/-- TaskQueue.process with promise rejection threaded explicitly. -/
def processE (maxWorkers maxRetries : ℕ)
    (world : ℕ → (ℕ → Bool) × (ℕ → ℚ)) (dels : ℕ → ℕ → Bool)
    (fuel : ℕ) (s : QState) : Except String QState :=
  if s.isBusy then .ok s
  else drainLoopE maxWorkers maxRetries world dels fuel 0
    { s with isBusy := true }

/-- Exception-threaded drain loop never rejects, and agrees with the pure
drain loop: every worker execution it awaits resolves, because the worker's
retry loop catches each attempt failure. -/
theorem drainLoopE_ok (maxWorkers maxRetries : ℕ)
    (world : ℕ → (ℕ → Bool) × (ℕ → ℚ)) (dels : ℕ → ℕ → Bool) :
    ∀ (fuel k : ℕ) (s : QState),
      drainLoopE maxWorkers maxRetries world dels fuel k s
        = .ok (drainLoop maxWorkers maxRetries world dels fuel k s) := by
  intro fuel
  induction fuel with
  | zero => intro k s; rfl
  | succ fuel ih =>
      intro k s
      cases hq : s.taskQueue with
      | nil =>
          rw [drainLoop_succ_nil maxWorkers maxRetries world dels fuel k s hq,
            drainLoopE, hq]
      | cons t rest =>
          cases hga : getAvailableWorker maxWorkers
              (clearDeletedWorkers (applyDeletions (dels fuel) s.workers)) with
          | none =>
              rw [drainLoop_succ_none maxWorkers maxRetries world dels fuel k
                s t rest hq hga, drainLoopE, hq]
              simp only [hga]
              exact ih k _
          | some p =>
              obtain ⟨i, ws'⟩ := p
              rw [drainLoop_succ_some maxWorkers maxRetries world dels fuel k
                s t rest hq i ws' hga, drainLoopE, hq]
              simp only [hga, executeE, executeEvents,
                executeLoopE_ok maxRetries (world k).1 (world k).2 t.id
                  maxRetries 0 rfl]
              exact ih (k + 1) _

/-- C6: no call to `process()` ever throws or rejects to its caller. The
worker's retry loop catches every executor failure (`executeE` always
resolves, agreeing with the pure `executeEvents`), so the drain loop's
awaited executions never reject, and the exception-threaded `processE`
always returns `ok` — the only failures visible to the caller are the
`onFail` callback invocations recorded on the trace. -/
theorem process_never_throws (maxWorkers maxRetries : ℕ)
    (succ : ℕ → Bool) (dur : ℕ → ℚ) (taskId : String)
    (world : ℕ → (ℕ → Bool) × (ℕ → ℚ)) (dels : ℕ → ℕ → Bool)
    (fuel : ℕ) (s : QState) :
    executeE maxRetries succ dur taskId
        = .ok (executeEvents maxRetries succ dur)
    ∧ processE maxWorkers maxRetries world dels fuel s
        = .ok (process maxWorkers maxRetries world dels fuel s) := by
  constructor
  · rw [executeE, executeLoopE_ok maxRetries succ dur taskId maxRetries 0 rfl]
    rfl
  · rw [processE, process]
    by_cases hb : s.isBusy
    · rw [if_pos hb, if_pos hb]
    · rw [if_neg hb, if_neg hb, drainLoopE_ok]

/-- Queue state after the completion handler has run for a sequence of
successful tasks with the given metadata, in order. -/
def afterSuccesses (t : Task) (mds : List RunMetadata) : QState :=
  mds.foldl (fun s md => handleEvent s t (.complete md)) initQueue

/-- Queue state after the failure handler has run for a sequence of failed
tasks with the given metadata, in order. -/
def afterFailures (t : Task) (mds : List RunMetadata) : QState :=
  mds.foldl (fun s md => handleEvent s t (.fail md)) initQueue

/-- Each completion handler run increments `_lifetimeTaskCounter` by one. -/
theorem foldl_complete_lifetime (t : Task) (mds : List RunMetadata) :
    ∀ s : QState,
      (mds.foldl (fun s md => handleEvent s t (.complete md))
          s).lifetimeTaskCounter
        = s.lifetimeTaskCounter + mds.length := by
  induction mds with
  | nil => intro s; simp
  | cons md mds ih =>
      intro s
      rw [List.foldl_cons, ih]
      simp only [handleEvent, List.length_cons]
      omega

/-- C7 counterexample: after a failed task and then a successful task with
`processingTime = 10`, `getStatistics` reports `averageProcessingTime = 5`,
not the mean `10` of the successful completions: the running update divides
by the just-incremented `_lifetimeTaskCounter`, which counts the failed
task as well. -/
theorem average_processing_time_counterexample :
    (getStatistics (handleEvent
        (handleEvent initQueue ⟨"a", "m"⟩ (.fail ⟨3, 5⟩))
        ⟨"a", "m"⟩ (.complete ⟨1, 10⟩))).averageProcessingTime = 5
    ∧ (5 : ℚ) ≠ 10 := by
  constructor
  · norm_num [getStatistics, handleEvent, initQueue]
  · norm_num

/-- Average over an all-success history: here the divisor
`_lifetimeTaskCounter` does count exactly the successful samples, and the
fold computes the running arithmetic mean. -/
theorem afterSuccesses_avg (t : Task) (mds : List RunMetadata) :
    (afterSuccesses t mds).averageProcessingTime
      = (mds.map RunMetadata.processingTime).sum / (mds.length : ℚ) := by
  induction mds using List.reverseRecOn with
  | nil => simp [afterSuccesses, initQueue]
  | append_singleton mds md ih =>
      rw [afterSuccesses, List.foldl_append, List.foldl_cons, List.foldl_nil,
        ← afterSuccesses]
      have hlife : (afterSuccesses t mds).lifetimeTaskCounter = mds.length := by
        rw [afterSuccesses, foldl_complete_lifetime]
        simp [initQueue]
      simp only [handleEvent, hlife, ih, List.map_append, List.map_cons,
        List.map_nil, List.sum_append, List.sum_cons, List.sum_nil,
        List.length_append, List.length_cons, List.length_nil]
      rcases Nat.eq_zero_or_pos mds.length with hn | hn
      · have hnil : mds = [] := List.length_eq_zero.mp hn
        subst hnil
        simp
      · have hne : (mds.length : ℚ) ≠ 0 := by
          exact_mod_cast Nat.pos_iff_ne_zero.mp hn
        have hne1 : (mds.length : ℚ) + 1 ≠ 0 := by positivity
        push_cast
        field_simp
        ring

/-- Average over an all-failure history: the failure handler never touches
`averageProcessingTime`, which stays at its initial `0`. -/
theorem afterFailures_avg (t : Task) (mds : List RunMetadata) :
    (afterFailures t mds).averageProcessingTime = 0 := by
  have h : ∀ s : QState,
      (mds.foldl (fun s md => handleEvent s t (.fail md))
          s).averageProcessingTime = s.averageProcessingTime := by
    induction mds with
    | nil => intro s; rfl
    | cons md mds ih =>
        intro s
        rw [List.foldl_cons, ih]
        rfl
  rw [afterFailures, h]
  rfl

/-- C7 (amended): the success handler updates `averageProcessingTime` by
`(t - avg) / lifetimeTaskCounter`, and `_lifetimeTaskCounter` counts failed
completions as well as successful ones; consequently the statistic returned
by `getStatistics` equals the running arithmetic mean of the successful
`processingTime` values whenever every completed task so far succeeded, and
is `0` when no task has succeeded — but with failures interleaved it
deviates from the success-only mean (see the counterexample). -/
theorem average_processing_time_amended (t : Task) (mds : List RunMetadata) :
    (getStatistics (afterSuccesses t mds)).averageProcessingTime
        = (mds.map RunMetadata.processingTime).sum / (mds.length : ℚ)
    ∧ (getStatistics (afterFailures t mds)).averageProcessingTime = 0 :=
  ⟨afterSuccesses_avg t mds, afterFailures_avg t mds⟩

/-- C8 counterexample: with `failureChance = 0` the draw `r = 0` — a value
`Math.random()` can return, its range being `[0, 1)` — satisfies the
rejection test `r * 100 <= failureChance`, so the attempt fails, and with
`maxRetries = 1` the execute call invokes `onFail`, not `onComplete` with
`attempts = 1` as the claim requires of every possible draw. -/
theorem always_succeed_counterexample :
    (0 : ℚ) ≤ 0 ∧ (0 : ℚ) < 1
    ∧ createNewTaskResolves 0 0 = false
    ∧ executeEvents 1 (fun _ => createNewTaskResolves 0 0) (fun _ => 0)
        = [.fail ⟨1, 0⟩] := by
  refine ⟨le_refl 0, by norm_num, by norm_num [createNewTaskResolves], ?_⟩
  simp [executeEvents, executeLoop, createNewTaskResolves]

/-- C8 (amended): with `failureChance = 0`, every random draw `r` with
`0 < r < 1` makes the first `createNewTask` attempt succeed, so every
executed task yields the single `onComplete` callback with `attempts = 1`
and `onFail` is never invoked; the one remaining possible draw, `r = 0`,
instead fails the attempt (see the counterexample), because the source's
rejection test uses `<=`. -/
theorem always_succeed_amended (maxRetries : ℕ) (hmr : 1 ≤ maxRetries)
    (r : ℚ) (hr0 : 0 < r) (_hr1 : r < 1) (dur : ℕ → ℚ) :
    executeEvents maxRetries (fun _ => createNewTaskResolves r 0) dur
      = [.complete ⟨1, dur 0⟩] := by
  have hres : createNewTaskResolves r 0 = true := by
    have hpos : ¬(r * 100 ≤ 0) := not_le.mpr (by positivity)
    simp [createNewTaskResolves, hpos]
  rw [executeEvents, executeLoop, dif_pos (by omega : 0 < maxRetries)]
  rw [if_pos hres]

/-- Closed witness for `always_succeed_amended` at the draw `r = 1/2`. -/
theorem always_succeed_amended_witness :
    executeEvents 1 (fun _ => createNewTaskResolves (1 / 2) 0) (fun _ => 3)
      = [.complete ⟨1, 3⟩] :=
  always_succeed_amended 1 (by decide) (1 / 2) (by norm_num) (by norm_num)
    (fun _ => 3)

end ZestTasks
